import Mathlib

/-!
Shallow embedding of the jp_alloc allocator (src/jp_alloc.cpp) and proofs
about its size-class pool system, aligned allocation path, header
discipline, free, realloc and introspection entry points.

Conventions of the embedding:
* size_t values are natural numbers; wrap-around arithmetic of C is made
  explicit with a modulus of 2^64 exactly where the C expression can wrap.
* Addresses are natural numbers.  The page source of the real program
  (mmap) returns addresses far below 2^64, so pointer arithmetic on
  returned addresses is modelled without wrap-around.
* The pool array is the DEBUG build of the source (the source defines
  DEBUG unconditionally), so freshly handed-out headers receive the live
  marker next = self and jp_free performs the bad-free check.
* The lock-free CAS loops are embedded sequentially: an uncontended
  compare-exchange succeeds on the first attempt, so a push links the new
  head in front of the old one and a pop replaces the head by its next
  field.
* The page source is an oracle: a function from the call number to the
  optional address returned by that mmap call.  Requests and releases are
  recorded in logs so that theorems can speak about what was mapped and
  what was returned to the page source.
* Out-of-domain operations of C (dereferencing null, pointer arithmetic
  on null such as the missing null check after pool_get in jp_alloc) are
  totalized to the error value none.
-/

namespace JpAlloc

/-- JP_ALLOC_POOL_COUNT, the number of size-class pools K. -/
def POOL_COUNT : Nat := 16

/-- sizeof(header) on LP64 Linux: the union of a 16-byte struct and the
32-byte max_align_t has size 32. -/
def hdrSize : Nat := 32

/-- Modulus of size_t arithmetic. -/
def W : Nat := 2 ^ 64

/-- Subtraction of size_t values with wrap-around, for a b below 2^64. -/
def sub64 (a b : Nat) : Nat := (W + a - b) % W

/-- Loop body of pool_id: count how often the value must be shifted right
before it becomes zero.  A 64-bit value is zero after at most 64 shifts,
so the fuel 64 makes the while loop structural without changing it on any
size_t input. -/
def bit_loop : Nat → Nat → Nat
  | _, 0 => 0
  | 0, _ + 1 => 0
  | f + 1, n + 1 => 1 + bit_loop f ((n + 1) / 2)

/-- pool_id from the source: decrement the size (with size_t wrap-around
at zero), then count the bits of the result. -/
def pool_id (size : Nat) : Nat := bit_loop 64 (sub64 size 1)

/-- is_pow2 from the source: (n & (n - 1)) == 0, true for 0 also, as the
source comment states.  Truncated Nat subtraction agrees with the C
expression: at n = 0 the C AND is 0 & (2^64 - 1) = 0 and the Nat AND is
0 & 0 = 0. -/
def is_pow2 (n : Nat) : Bool := n &&& (n - 1) == 0

/-- Rounding to whole pages from the source: (x + ps - 1) & ~(ps - 1),
where the 64-bit complement of ps - 1 is 2^64 - ps. -/
def round_pages (x ps : Nat) : Nat := ((x + ps - 1) % W) &&& (W - ps)

/-- Header word preceding every allocation: the size field (class index
or byte count) and the next link (none models a null pointer). -/
structure Header where
  size : Nat
  next : Option Nat

/-- Process state of the allocator: page size, the head pointer of each
pool, the header memory, the page-source oracle with its call counter,
the logs of mapped and released regions, and the bad-free counter of the
DEBUG build. -/
structure AllocState where
  ps : Nat
  heads : Nat → Option Nat
  mem : Nat → Header
  os : Nat → Option Nat
  osCalls : Nat
  mapped : List (Nat × Nat)
  freed : List (Nat × Nat)
  badFree : Nat

/-- Write the size field of the header at address h. -/
def setSize (st : AllocState) (h v : Nat) : AllocState :=
  { st with mem := fun x => if x = h then { st.mem x with size := v } else st.mem x }

/-- Write the next field of the header at address h. -/
def setNext (st : AllocState) (h : Nat) (v : Option Nat) : AllocState :=
  { st with mem := fun x => if x = h then { st.mem x with next := v } else st.mem x }

/-- os_alloc_pages: consult the page-source oracle at the current call
number and log the mapped region on success. -/
def os_alloc_pages (st : AllocState) (size : Nat) : Option Nat × AllocState :=
  match st.os st.osCalls with
  | none => (none, { st with osCalls := st.osCalls + 1 })
  | some a =>
      (some a, { st with osCalls := st.osCalls + 1, mapped := (a, size) :: st.mapped })

/-- os_free_pages: log the released region. -/
def os_free_pages (st : AllocState) (a size : Nat) : AllocState :=
  { st with freed := (a, size) :: st.freed }

/-- pool_put: link the header in front of the observed head, then install
it as the new head (the sequential outcome of the CAS loop). -/
def pool_put (st : AllocState) (h : Nat) (i : Nat) : AllocState :=
  let st1 := setNext st h (st.heads i)
  { st1 with heads := fun j => if j = i then some h else st1.heads j }

/-- Pop branch of pool_get: the sequential CAS pop replaces the head of
pool i by the next link of the popped header, and the popped header then
receives the DEBUG live marker next = self. -/
def pool_pop1 (st : AllocState) (i a : Nat) : Option Nat × AllocState :=
  let st1 := { st with heads := fun j => if j = i then (st.mem a).next else st.heads j }
  (some a, setNext st1 a (some a))

/-- Terminal refill branch of pool_get: ask the page source for a
2^(POOL_COUNT-1) byte span, store the class POOL_COUNT - 1 in its header,
mark it live and return it without pushing it. -/
def pool_refill_os (st : AllocState) : Option Nat × AllocState :=
  match os_alloc_pages st (2 ^ (POOL_COUNT - 1)) with
  | (none, st1) => (none, st1)
  | (some a, st1) => (some a, setNext (setSize st1 a (POOL_COUNT - 1)) a (some a))

/-- Split branch of pool_get: decrement the stored size of the span
obtained from the next pool, write the same size into the second half at
offset 2^sz, push the second half onto pool i, mark the first half live
and return it. -/
def pool_split (st1 : AllocState) (i a : Nat) : Option Nat × AllocState :=
  let sz := (st1.mem a).size - 1
  let spare := a + 2 ^ sz
  let st2 := setSize (setSize st1 a sz) spare sz
  let st3 := pool_put st2 spare i
  (some a, setNext st3 a (some a))

/-- pool_get, with the refill recursion made structural on an explicit
fuel.  The recursion strictly increases the pool index and stops at pool
POOL_COUNT - 1, so POOL_COUNT - 1 - i nested calls always suffice; the
source guarantees this bound because the pool array has POOL_COUNT
entries.  A nonempty pool is popped; an empty terminal pool asks the page
source for memory; an empty inner pool refills from the next pool and
splits the obtained span. -/
def pool_get_go : Nat → AllocState → Nat → Option Nat × AllocState
  | 0, st, i =>
      match st.heads i with
      | some a => pool_pop1 st i a
      | none => if i = POOL_COUNT - 1 then pool_refill_os st else (none, st)
  | f + 1, st, i =>
      match st.heads i with
      | some a => pool_pop1 st i a
      | none =>
          if i = POOL_COUNT - 1 then pool_refill_os st
          else
            match pool_get_go f st (i + 1) with
            | (none, st1) => (none, st1)
            | (some a, st1) => pool_split st1 i a

/-- pool_get on pool i. -/
def pool_get (st : AllocState) (i : Nat) : Option Nat × AllocState :=
  pool_get_go (POOL_COUNT - 1 - i) st i

/-- jp_alloc: add the header size (size_t addition), pick the class; a
class below POOL_COUNT is served from its pool, larger requests are
rounded to whole pages and mapped directly, storing the rounded byte
count in the header.  The source returns pool_get result + 1 without a
null check; the null case is totalized to none. -/
def jp_alloc (st : AllocState) (n : Nat) : Option Nat × AllocState :=
  let size := (n + hdrSize) % W
  let pid := pool_id size
  if pid < POOL_COUNT then
    match pool_get st pid with
    | (m, st1) => (m.map (fun h => h + hdrSize), st1)
  else
    let size2 := round_pages size st.ps
    match os_alloc_pages st size2 with
    | (none, st1) => (none, st1)
    | (some a, st1) => (some (a + hdrSize), setNext (setSize st1 a size2) a (some a))

/-- alloc_pages_aligned from the source: reject non-power-of-two
alignments (with 0 accepted by is_pow2), compute pre padding and slack,
map the rounded span, move the header so that header + sizeof(header) is
aligned, and for alignments above the page size release the leading and
trailing slack pages. -/
def alloc_pages_aligned (st : AllocState) (alignment size : Nat) : Option Nat × AllocState :=
  if !is_pow2 alignment then (none, st) else
  let ps := st.ps
  let a2 := if alignment > ps then alignment
            else if alignment > hdrSize then alignment else hdrSize
  let pre_padding := if alignment > ps then ps - hdrSize
                     else if alignment > hdrSize then alignment - hdrSize else 0
  let align_size := if alignment > ps then alignment - ps else 0
  let span_size := (pre_padding + size + align_size) % W
  let ssr := round_pages span_size ps
  match os_alloc_pages st ssr with
  | (none, st1) => (none, st1)
  | (some span, st1) =>
      let hdr := span + pre_padding
      let offset := (a2 - ((hdr + hdrSize) &&& (a2 - 1))) &&& (a2 - 1)
      let hdr2 := hdr + offset
      let st2 :=
        if 0 < align_size then
          let pre_size := offset
          let post_size := align_size - pre_size
          let st2a := if 0 < pre_size then os_free_pages st1 span pre_size else st1
          if 0 < post_size then os_free_pages st2a (span + ssr - post_size) post_size
          else st2a
        else st1
      (some hdr2, st2)

/-- jp_alloc_aligned: add the header size, obtain an aligned span, store
the gross byte count (not the rounded span size) in the header, mark it
live and return the user pointer. -/
def jp_alloc_aligned (st : AllocState) (alignment n : Nat) : Option Nat × AllocState :=
  let size := (n + hdrSize) % W
  match alloc_pages_aligned st alignment size with
  | (none, st1) => (none, st1)
  | (some h, st1) => (some (h + hdrSize), setNext (setSize st1 h size) h (some h))

/-- jp_free: null is a no-op; a header failing the DEBUG live check only
bumps the bad-free counter; a class-sized header is pushed onto its pool;
otherwise the source releases size + pre_padding bytes at address
h + pre_padding, where pre_padding is the in-page offset of the user
pointer. -/
def jp_free (st : AllocState) (p : Option Nat) : AllocState :=
  match p with
  | none => st
  | some u =>
      let h := u - hdrSize
      if (st.mem h).next ≠ some h then { st with badFree := st.badFree + 1 }
      else
        let size := (st.mem h).size
        if size < POOL_COUNT then pool_put st h size
        else
          let pre := u &&& (st.ps - 1)
          os_free_pages st (h + pre) ((size + pre) % W)

/-- malloc_usable_size: the source dereferences ptr - 1 with no null
check, so a null argument is out of the domain and totalizes to none; a
class index is expanded to 2^i, then the header size is subtracted with
size_t wrap-around. -/
def malloc_usable_size (st : AllocState) (p : Option Nat) : Option Nat :=
  match p with
  | none => none
  | some u =>
      let h := u - hdrSize
      let size := (st.mem h).size
      let size := if size < POOL_COUNT then 2 ^ size else size
      some (sub64 size hdrSize)

/-- jp_good_size from the source: classify the request without adding the
header size, expand a class to 2^pid or round to whole pages, subtract
the header size with size_t wrap-around. -/
def jp_good_size (ps size : Nat) : Nat :=
  let pid := pool_id size
  let s2 := if pid < POOL_COUNT then 2 ^ pid else round_pages size ps
  sub64 s2 hdrSize

/-- jp_realloc: compute the current usable byte count from the header (0
for a null pointer), grow by allocate-copy-free, free on new size 0,
otherwise return the pointer unchanged.  The byte copy is not modelled
because the state carries no user data. -/
def jp_realloc (st : AllocState) (p : Option Nat) (new_size : Nat) : Option Nat × AllocState :=
  let size := match p with
    | none => 0
    | some u =>
        let h := u - hdrSize
        let s := (st.mem h).size
        let s := if s < POOL_COUNT then 2 ^ s else s
        sub64 s hdrSize
  if new_size > size then
    match jp_alloc st new_size with
    | (nm, st1) => (nm, jp_free st1 p)
  else if new_size = 0 then (none, jp_free st p)
  else (p, st)

/-! ### Concrete states used to instantiate the theorems

The page size is 4096 and the page-source oracles return page-aligned
addresses, as mmap does. -/

/-- Header with all fields cleared, the content of fresh anonymous
memory. -/
def zeroHeader : Header := { size := 0, next := none }

/-- Base state builder: page size 4096, given pool heads, header memory
and page-source oracle, no page-source calls made yet and empty logs. -/
def mkState (heads : Nat → Option Nat) (mem : Nat → Header) (os : Nat → Option Nat) : AllocState :=
  { ps := 4096, heads := heads, mem := mem, os := os, osCalls := 0,
    mapped := [], freed := [], badFree := 0 }

/-- State with every pool empty and a page source that always fails. -/
def emptyState : AllocState := mkState (fun _ => none) (fun _ => zeroHeader) (fun _ => none)

/-- State with every pool empty whose first mmap call returns the
page-aligned address 4096. -/
def osState : AllocState :=
  mkState (fun _ => none) (fun _ => zeroHeader) (fun t => if t = 0 then some 4096 else none)

/-- State with a single free block at address a on pool i, its header
storing the class index i. -/
def poolState (i a : Nat) : AllocState :=
  mkState (fun j => if j = i then some a else none)
    (fun x => if x = a then { size := i, next := none } else zeroHeader) (fun _ => none)

/-- State with a live direct-mapped block: header at 8192 stores the
rounded byte count 36864 and the live marker next = self. -/
def liveState : AllocState :=
  mkState (fun _ => none)
    (fun x => if x = 8192 then { size := 36864, next := some 8192 } else zeroHeader)
    (fun _ => none)

/-- State with pool 12 empty and pool 13 holding one block at 8192 whose
header stores the class index 13. -/
def splitState : AllocState :=
  mkState (fun j => if j = 13 then some 8192 else none)
    (fun x => if x = 8192 then { size := 13, next := none } else zeroHeader)
    (fun _ => none)

/-! ### Arithmetic facts about the helper functions -/

theorem sub64_eq {a b : Nat} (hba : b ≤ a) (ha : a < W) : sub64 a b = a - b := by
  unfold sub64
  have h1 : W + a - b = W + (a - b) := by omega
  rw [h1, Nat.add_mod_left]
  exact Nat.mod_eq_of_lt (by omega)

theorem bit_loop_le : ∀ (f : Nat) {n : Nat}, n < 2 ^ f → ∀ k, (bit_loop f n ≤ k ↔ n < 2 ^ k) := by
  intro f
  induction f with
  | zero =>
      intro n hn k
      have hn0 : n = 0 := by simpa using hn
      subst hn0
      simp [bit_loop, Nat.pos_pow_of_pos, Nat.two_pow_pos]
  | succ f ih =>
      intro n hn k
      match n with
      | 0 => simp [bit_loop, Nat.two_pow_pos]
      | m + 1 =>
        have heq : bit_loop (f + 1) (m + 1) = 1 + bit_loop f ((m + 1) / 2) := rfl
        have hdiv : (m + 1) / 2 < 2 ^ f := by
          rw [Nat.div_lt_iff_lt_mul (by norm_num)]
          calc m + 1 < 2 ^ (f + 1) := hn
            _ = 2 ^ f * 2 := by ring
        rw [heq]
        cases k with
        | zero =>
            constructor
            · intro h; omega
            · intro h; omega
        | succ j =>
            have hj := ih hdiv j
            constructor
            · intro h
              have : bit_loop f ((m + 1) / 2) ≤ j := by omega
              have := hj.mp this
              have : m + 1 < 2 ^ j * 2 := by
                rw [← Nat.div_lt_iff_lt_mul (by norm_num)]; exact this
              calc m + 1 < 2 ^ j * 2 := this
                _ = 2 ^ (j + 1) := by ring
            · intro h
              have : (m + 1) / 2 < 2 ^ j := by
                rw [Nat.div_lt_iff_lt_mul (by norm_num)]
                calc m + 1 < 2 ^ (j + 1) := h
                  _ = 2 ^ j * 2 := by ring
              have := hj.mpr this
              omega

theorem pool_id_le_iff {g : Nat} (h1 : 1 ≤ g) (h2 : g < W) (k : Nat) :
    pool_id g ≤ k ↔ g ≤ 2 ^ k := by
  unfold pool_id
  rw [sub64_eq h1 h2]
  have hg : g - 1 < 2 ^ 64 := by
    have : W = 2 ^ 64 := rfl
    omega
  rw [bit_loop_le 64 hg k]
  omega

theorem le_two_pow_pool_id {g : Nat} (h1 : 1 ≤ g) (h2 : g < W) : g ≤ 2 ^ pool_id g :=
  (pool_id_le_iff h1 h2 _).mp le_rfl

theorem pool_id_eq {g i : Nat} (h1 : 1 ≤ g) (h2 : g < W)
    (hlo : 2 ^ (i - 1) < g) (hhi : g ≤ 2 ^ i) : pool_id g = i := by
  have hle : pool_id g ≤ i := (pool_id_le_iff h1 h2 i).mpr hhi
  have hge : i ≤ pool_id g := by
    by_contra hc
    push_neg at hc
    have : pool_id g ≤ i - 1 := by omega
    have := (pool_id_le_iff h1 h2 (i - 1)).mp this
    omega
  omega

theorem is_pow2_two_pow (k : Nat) : is_pow2 (2 ^ k) = true := by
  unfold is_pow2
  simp [Nat.and_pow_two_sub_one_eq_mod]

theorem exists_pow_of_land_pred : ∀ n, 0 < n → n &&& (n - 1) = 0 → ∃ k, n = 2 ^ k := by
  intro n
  induction n using Nat.strong_induction_on with
  | _ n ih =>
    intro hpos hand
    rcases Nat.even_or_odd n with he | ho
    · obtain ⟨m, hm⟩ := he
      have hmpos : 0 < m := by omega
      have h1 : n = Nat.bit false m := by rw [Nat.bit_val]; simp; omega
      have h2 : n - 1 = Nat.bit true (m - 1) := by rw [Nat.bit_val]; simp; omega
      rw [h2, h1, Nat.land_bit] at hand
      simp [Nat.bit_val] at hand
      obtain ⟨k, hk⟩ := ih m (by omega) hmpos hand
      exact ⟨k + 1, by rw [pow_succ]; omega⟩
    · obtain ⟨m, hm⟩ := ho
      have h1 : n = Nat.bit true m := by rw [Nat.bit_val]; simp; omega
      have h2 : n - 1 = Nat.bit false m := by rw [Nat.bit_val]; simp; omega
      rw [h2, h1, Nat.land_bit] at hand
      simp [Nat.bit_val, Nat.and_self] at hand
      exact ⟨0, by omega⟩

theorem is_pow2_false_of_not_pow {n : Nat} (h0 : 0 < n) (h : ∀ k, n ≠ 2 ^ k) :
    is_pow2 n = false := by
  unfold is_pow2
  by_contra hc
  simp at hc
  obtain ⟨k, hk⟩ := exists_pow_of_land_pred n h0 hc
  exact h k hk

theorem land_mask_eq {y p : Nat} (hy : y < W) (hp : p ≤ 64) :
    y &&& (W - 2 ^ p) = 2 ^ p * (y / 2 ^ p) := by
  have hmul : 2 ^ p * 2 ^ (64 - p) = W := by
    show 2 ^ p * 2 ^ (64 - p) = 2 ^ 64
    rw [← pow_add]
    congr 1
    omega
  have hone : 1 ≤ 2 ^ (64 - p) := Nat.one_le_two_pow
  have hmask : W - 2 ^ p = 2 ^ p * (2 ^ (64 - p) - 1) := by
    rw [Nat.mul_sub, hmul]
    omega
  apply Nat.eq_of_testBit_eq
  intro i
  rw [Nat.testBit_land, hmask, Nat.testBit_mul_pow_two, Nat.testBit_mul_pow_two,
    Nat.testBit_two_pow_sub_one]
  have hdiv : y / 2 ^ p = y >>> p := (Nat.shiftRight_eq_div_pow y p).symm
  rw [hdiv, Nat.testBit_shiftRight]
  by_cases hip : p ≤ i
  · have hpi : p + (i - p) = i := by omega
    by_cases hi64 : i < 64
    · have hlt : i - p < 64 - p := by omega
      simp [hip, hlt, hpi, ge_iff_le]
    · have hbit : y.testBit i = false := by
        apply Nat.testBit_lt_two_pow
        calc y < 2 ^ 64 := hy
          _ ≤ 2 ^ i := Nat.pow_le_pow_right (by norm_num) (by omega)
      have hlt : ¬(i - p < 64 - p) := by omega
      simp [hip, hlt, hpi, hbit, ge_iff_le]
  · simp [hip, ge_iff_le]

theorem round_pages_spec {x p : Nat} (hp : p ≤ 64) (hx : x + 2 ^ p ≤ W) :
    round_pages x (2 ^ p) = 2 ^ p * ((x + 2 ^ p - 1) / 2 ^ p) := by
  unfold round_pages
  have hpos : 0 < 2 ^ p := Nat.two_pow_pos p
  have h1 : (x + 2 ^ p - 1) % W = x + 2 ^ p - 1 := Nat.mod_eq_of_lt (by omega)
  rw [h1, land_mask_eq (by omega) hp]

theorem le_round_pages {x p : Nat} (hp : p ≤ 64) (hx : x + 2 ^ p ≤ W) :
    x ≤ round_pages x (2 ^ p) := by
  rw [round_pages_spec hp hx]
  have hpos : 0 < 2 ^ p := Nat.two_pow_pos p
  have hd := Nat.div_add_mod (x + 2 ^ p - 1) (2 ^ p)
  have hr : (x + 2 ^ p - 1) % 2 ^ p < 2 ^ p := Nat.mod_lt _ hpos
  omega

theorem align_offset (m x : Nat) :
    (x + ((2 ^ m - (x &&& (2 ^ m - 1))) &&& (2 ^ m - 1))) % 2 ^ m = 0 := by
  rw [Nat.and_pow_two_sub_one_eq_mod, Nat.and_pow_two_sub_one_eq_mod]
  have hpos : 0 < 2 ^ m := Nat.two_pow_pos m
  have hd : 2 ^ m * (x / 2 ^ m) + x % 2 ^ m = x := Nat.div_add_mod x (2 ^ m)
  have hr : x % 2 ^ m < 2 ^ m := Nat.mod_lt x hpos
  rcases Nat.eq_zero_or_pos (x % 2 ^ m) with h0 | hpos2
  · rw [h0, Nat.sub_zero, Nat.mod_self, Nat.add_zero, h0]
  · have h1 : (2 ^ m - x % 2 ^ m) % 2 ^ m = 2 ^ m - x % 2 ^ m := Nat.mod_eq_of_lt (by omega)
    rw [h1]
    have h2 : x + (2 ^ m - x % 2 ^ m) = 2 ^ m * (x / 2 ^ m + 1) := by
      have : 2 ^ m * (x / 2 ^ m + 1) = 2 ^ m * (x / 2 ^ m) + 2 ^ m := by ring
      omega
    rw [h2]
    exact Nat.mul_mod_right _ _

theorem align_mod (m x : Nat) : (x + (2 ^ m - x % 2 ^ m) % 2 ^ m) % 2 ^ m = 0 := by
  have h := align_offset m x
  rwa [Nat.and_pow_two_sub_one_eq_mod, Nat.and_pow_two_sub_one_eq_mod] at h

theorem align_branch {k h2 base : Nat}
    (h : h2 = base + (2 ^ k - (base + hdrSize) % 2 ^ k) % 2 ^ k) :
    (h2 + hdrSize) % 2 ^ k = 0 := by
  subst h
  have H := align_mod k (base + hdrSize)
  have e : base + (2 ^ k - (base + hdrSize) % 2 ^ k) % 2 ^ k + hdrSize
      = base + hdrSize + (2 ^ k - (base + hdrSize) % 2 ^ k) % 2 ^ k := by omega
  rw [e]
  exact H

theorem align_branch5 {k h2 base : Nat} (hk : k ≤ 5)
    (h : h2 = base + ((hdrSize - ((base + hdrSize) &&& (hdrSize - 1))) &&& (hdrSize - 1))) :
    (h2 + hdrSize) % 2 ^ k = 0 := by
  subst h
  rw [show hdrSize = 2 ^ 5 from rfl]
  have H := align_offset 5 (base + 2 ^ 5)
  have e : base + (2 ^ 5 - (base + 2 ^ 5 &&& 2 ^ 5 - 1) &&& 2 ^ 5 - 1) + 2 ^ 5
      = base + 2 ^ 5 + (2 ^ 5 - (base + 2 ^ 5 &&& 2 ^ 5 - 1) &&& 2 ^ 5 - 1) := by omega
  rw [e]
  exact Nat.mod_eq_zero_of_dvd ((pow_dvd_pow 2 hk).trans (Nat.dvd_of_mod_eq_zero H))

/-! ### Step lemmas about the embedded operations -/

theorem alloc_pages_aligned_user_aligned (st : AllocState) (k size h2 : Nat)
    (h : (alloc_pages_aligned st (2 ^ k) size).1 = some h2) :
    (h2 + hdrSize) % 2 ^ k = 0 := by
  unfold alloc_pages_aligned at h
  rw [is_pow2_two_pow] at h
  simp only [Bool.not_true, Bool.false_eq_true, if_false] at h
  rcases hos : st.os st.osCalls with _ | span
  all_goals simp only [os_alloc_pages, hos] at h
  · simp at h
  · by_cases hc1 : 2 ^ k > st.ps
    · simp only [hc1, if_true, if_pos] at h
      simp at h
      exact align_branch h.symm
    · by_cases hc2 : 2 ^ k > hdrSize
      · simp only [hc1, hc2, if_true, if_false, if_pos, if_neg] at h
        simp at h
        exact align_branch h.symm
      · simp only [hc1, hc2, if_false, if_neg] at h
        simp at h
        have hk5 : k ≤ 5 := by
          by_contra hgt
          push_neg at hgt
          have h6 : 2 ^ 6 ≤ 2 ^ k := Nat.pow_le_pow_right (by norm_num) (by omega)
          have : hdrSize < 2 ^ k := by unfold hdrSize at *; omega
          omega
        exact align_branch5 hk5 h.symm

theorem pool_get_go_pop (f : Nat) (st : AllocState) (i a : Nat) (h : st.heads i = some a) :
    pool_get_go f st i = pool_pop1 st i a := by
  cases f <;> simp [pool_get_go, h]

theorem pool_get_pop (st : AllocState) (i a : Nat) (h : st.heads i = some a) :
    pool_get st i = pool_pop1 st i a := by
  unfold pool_get
  cases hf : POOL_COUNT - 1 - i with
  | zero => simp [pool_get_go, h]
  | succ f => simp [pool_get_go, h]

theorem pool_get_split_eq (st : AllocState) (i a : Nat) (hi : i < POOL_COUNT - 1)
    (hh : st.heads i = none) (hh1 : st.heads (i + 1) = some a) :
    pool_get st i = pool_split (pool_pop1 st (i + 1) a).2 i a := by
  unfold pool_get
  have hK : POOL_COUNT = 16 := rfl
  rw [show POOL_COUNT - 1 - i = (POOL_COUNT - 1 - (i + 1)) + 1 from by omega]
  simp only [pool_get_go, hh, if_neg (show i ≠ POOL_COUNT - 1 from by omega)]
  rw [pool_get_go_pop _ st (i + 1) a hh1]
  simp only [pool_pop1]

theorem pool_get_go_none_iff : ∀ (f i : Nat) (st : AllocState), i ≤ POOL_COUNT - 1 →
    f = POOL_COUNT - 1 - i →
    ((pool_get_go f st i).1 = none ↔
      ((∀ j, i ≤ j → j ≤ POOL_COUNT - 1 → st.heads j = none) ∧ st.os st.osCalls = none)) := by
  intro f
  induction f with
  | zero =>
      intro i st hi hf
      have hK : POOL_COUNT = 16 := rfl
      have hieq : i = POOL_COUNT - 1 := by omega
      subst hieq
      cases hh : st.heads (POOL_COUNT - 1) with
      | some a =>
          rw [pool_get_go_pop 0 st _ a hh]
          simp only [pool_pop1]
          constructor
          · intro hcon; simp at hcon
          · rintro ⟨hall, -⟩
            have hnone := hall _ le_rfl le_rfl
            rw [hnone] at hh
            cases hh
      | none =>
          simp only [pool_get_go, hh, if_pos rfl]
          cases hos : st.os st.osCalls with
          | none =>
              constructor
              · intro _
                refine ⟨fun j hj1 hj2 => ?_, rfl⟩
                have hj : j = POOL_COUNT - 1 := by omega
                rw [hj]; exact hh
              · intro _
                simp [pool_refill_os, os_alloc_pages, hos]
          | some a =>
              constructor
              · intro hcon
                simp [pool_refill_os, os_alloc_pages, hos] at hcon
              · rintro ⟨-, hosn⟩
                cases hosn
  | succ f ih =>
      intro i st hi hf
      have hK : POOL_COUNT = 16 := rfl
      have hne : i ≠ POOL_COUNT - 1 := by omega
      cases hh : st.heads i with
      | some a =>
          rw [pool_get_go_pop (f + 1) st i a hh]
          simp only [pool_pop1]
          constructor
          · intro hcon; simp at hcon
          · rintro ⟨hall, -⟩
            have hnone := hall i le_rfl hi
            rw [hnone] at hh
            cases hh
      | none =>
          simp only [pool_get_go, hh, if_neg hne]
          have hrec := ih (i + 1) st (by omega) (by omega)
          rcases hg : pool_get_go f st (i + 1) with ⟨o, st1⟩
          rw [hg] at hrec
          cases o with
          | none =>
              constructor
              · intro _
                obtain ⟨hall, hos⟩ := hrec.mp rfl
                refine ⟨fun j hj1 hj2 => ?_, hos⟩
                rcases Nat.eq_or_lt_of_le hj1 with he | hlt
                · rw [← he]; exact hh
                · exact hall j (by omega) hj2
              · intro _; rfl
          | some a =>
              simp only [pool_split]
              constructor
              · intro hcon; simp at hcon
              · rintro ⟨hall, hos⟩
                have hr : (∀ j, i + 1 ≤ j → j ≤ POOL_COUNT - 1 → st.heads j = none) ∧
                    st.os st.osCalls = none := ⟨fun j hj1 hj2 => hall j (by omega) hj2, hos⟩
                have := hrec.mpr hr
                cases this

theorem jp_alloc_aligned_none_of_not_pow2 (st : AllocState) (a n : Nat)
    (h0 : 0 < a) (hnp : ∀ k, a ≠ 2 ^ k) : jp_alloc_aligned st a n = (none, st) := by
  have hfalse : is_pow2 a = false := is_pow2_false_of_not_pow h0 hnp
  simp [jp_alloc_aligned, alloc_pages_aligned, hfalse]

theorem three_ne_two_pow (k : Nat) : (3 : Nat) ≠ 2 ^ k := by
  intro h
  match k with
  | 0 => simp at h
  | 1 => simp at h
  | k + 2 =>
      have h4 : 4 ≤ 2 ^ (k + 2) := by
        calc (4:Nat) = 2 ^ 2 := by norm_num
          _ ≤ 2 ^ (k + 2) := Nat.pow_le_pow_right (by norm_num) (by omega)
      omega

/-! ### Claim theorems -/

/-- C1: for every power-of-two alignment 2^k and every size n, when
jp_alloc_aligned returns a non-null pointer u, u is a multiple of the
alignment, for every address the page source returns.  The offset
computed at the chosen header position makes header + sizeof(header)
aligned: the source expression (alignment - addr & (alignment-1)) &
(alignment-1) parses as ((alignment - (addr & (alignment-1))) &
(alignment-1)), which is the negation of addr modulo the alignment. -/
theorem jp_alloc_aligned_user_is_aligned (st : AllocState) (k n u : Nat)
    (h : (jp_alloc_aligned st (2 ^ k) n).1 = some u) : u % 2 ^ k = 0 := by
  simp only [jp_alloc_aligned] at h
  rcases ha : alloc_pages_aligned st (2 ^ k) ((n + hdrSize) % W) with ⟨o, st1⟩
  rw [ha] at h
  cases o with
  | none => simp at h
  | some hd =>
      simp at h
      subst h
      exact alloc_pages_aligned_user_aligned st k ((n + hdrSize) % W) hd (by rw [ha])

/-- C1 witness: at page size 4096, span address 4096, alignment 64 and
request 10 the returned user pointer 4160 is a multiple of 64. -/
theorem jp_alloc_aligned_user_is_aligned_witness :
    (jp_alloc_aligned osState (2 ^ 6) 10).1 = some 4160 ∧ (4160 : Nat) % 2 ^ 6 = 0 :=
  ⟨by decide, jp_alloc_aligned_user_is_aligned osState 6 10 4160 (by decide)⟩

/-- C2: jp_good_size does not add sizeof(header) before classifying the
request, while jp_alloc does, so jp_good_size(n) differs from
malloc_usable_size(jp_alloc(n)): at n = 100 the good size is 96 (class
2^7 of the bare 100 minus the header) but the allocation is served from
class 2^8 with usable size 224, the rounded footprint of 100 +
sizeof(header). -/
theorem jp_good_size_diverges_from_usable_size :
    jp_good_size 4096 100 = 96 ∧
    (jp_alloc (poolState 8 8192) 100).1 = some 8224 ∧
    malloc_usable_size (jp_alloc (poolState 8 8192) 100).2 (some 8224) = some 224 ∧
    jp_good_size 4096 100 ≠ 224 := by
  refine ⟨by decide, by decide, by decide, by decide⟩

/-- C3: for a direct-mapped block obtained as span 4096 of 36864 mapped
bytes (request 32768, page size 4096), jp_free passes to the page source
the region starting at header + in-page offset with length stored size +
in-page offset, namely (4128, 36896), and not the mapped region
(4096, 36864): the source adds the offset to the header address instead
of recovering the page-aligned span start. -/
theorem jp_free_direct_releases_wrong_region :
    (jp_alloc osState 32768).1 = some 4128 ∧
    (jp_alloc osState 32768).2.mapped = [(4096, 36864)] ∧
    (jp_free (jp_alloc osState 32768).2 (some 4128)).freed = [(4128, 36896)] ∧
    ((4128, 36896) : Nat × Nat) ≠ (4096, 36864) := by
  refine ⟨by decide, by decide, by decide, by decide⟩

/-- C4 counterexample: jp_alloc_aligned(64, 10) maps a 4096-byte span,
trims nothing, and stores 42 = 10 + sizeof(header) in the header, so the
stored size of an aligned block does not equal the mapped byte count. -/
theorem aligned_header_size_not_mapped_bytes :
    (jp_alloc_aligned osState 64 10).1 = some 4160 ∧
    ((jp_alloc_aligned osState 64 10).2.mem 4128).size = 42 ∧
    (jp_alloc_aligned osState 64 10).2.mapped = [(4096, 4096)] ∧
    (jp_alloc_aligned osState 64 10).2.freed = [] ∧
    (42 : Nat) ≠ 4096 := by
  refine ⟨by decide, by decide, by decide, by decide, by decide⟩

/-- C4 amended: a pool block keeps its stored class index below
POOL_COUNT; a jp_alloc direct block stores the page-rounded gross byte
count, which equals the mapped byte count and is at least POOL_COUNT; a
jp_alloc_aligned block stores the gross size n + sizeof(header), which is
at least POOL_COUNT but in general differs from the mapped byte count. -/
theorem header_size_encoding_amended :
    (∀ (st : AllocState) (n a : Nat),
      pool_id ((n + hdrSize) % W) < POOL_COUNT →
      st.heads (pool_id ((n + hdrSize) % W)) = some a →
      (st.mem a).size = pool_id ((n + hdrSize) % W) →
      (jp_alloc st n).1 = some (a + hdrSize) ∧
      ((jp_alloc st n).2.mem a).size = pool_id ((n + hdrSize) % W)) ∧
    (∀ (st : AllocState) (n p span : Nat), st.ps = 2 ^ p → p ≤ 64 →
      ¬ pool_id ((n + hdrSize) % W) < POOL_COUNT →
      n + hdrSize < W → n + hdrSize + st.ps ≤ W →
      st.os st.osCalls = some span →
      (jp_alloc st n).1 = some (span + hdrSize) ∧
      ((jp_alloc st n).2.mem span).size = round_pages (n + hdrSize) st.ps ∧
      (jp_alloc st n).2.mapped = (span, round_pages (n + hdrSize) st.ps) :: st.mapped ∧
      POOL_COUNT ≤ round_pages (n + hdrSize) st.ps) ∧
    (∀ (st : AllocState) (al n u : Nat), n + hdrSize < W →
      (jp_alloc_aligned st al n).1 = some u →
      ((jp_alloc_aligned st al n).2.mem (u - hdrSize)).size = n + hdrSize ∧
      POOL_COUNT ≤ n + hdrSize) := by
  refine ⟨?_, ?_, ?_⟩
  · intro st n a hpid hhead hinv
    constructor
    · simp only [jp_alloc, if_pos hpid, pool_get_pop st _ a hhead, pool_pop1]
      rfl
    · simp only [jp_alloc, if_pos hpid, pool_get_pop st _ a hhead, pool_pop1, setNext]
      simp [hinv]
  · intro st n p span hps hp hpid hW hpsW hos
    have hmod : (n + hdrSize) % W = n + hdrSize := Nat.mod_eq_of_lt hW
    have h32 : hdrSize = 32 := rfl
    have hK : POOL_COUNT = 16 := rfl
    have hg1 : 1 ≤ n + hdrSize := by omega
    have hgbig : 2 ^ 15 < n + hdrSize := by
      by_contra hc
      push_neg at hc
      have := (pool_id_le_iff hg1 hW 15).mpr hc
      rw [hmod] at hpid
      omega
    have hround : n + hdrSize ≤ round_pages (n + hdrSize) st.ps := by
      rw [hps]
      exact le_round_pages hp (by rw [hps] at hpsW; omega)
    have hpid2 : ¬ pool_id (n + hdrSize) < POOL_COUNT := by rwa [hmod] at hpid
    refine ⟨?_, ?_, ?_, ?_⟩
    · simp only [jp_alloc, hmod, if_neg hpid2, os_alloc_pages, hos]
    · simp only [jp_alloc, hmod, if_neg hpid2, os_alloc_pages, hos, setNext, setSize]
      simp
    · simp only [jp_alloc, hmod, if_neg hpid2, os_alloc_pages, hos, setNext, setSize]
    · have h215 : (2:Nat) ^ 15 = 32768 := by norm_num
      omega
  · intro st al n u hW h
    have hmod : (n + hdrSize) % W = n + hdrSize := Nat.mod_eq_of_lt hW
    have h32 : hdrSize = 32 := rfl
    have hK : POOL_COUNT = 16 := rfl
    simp only [jp_alloc_aligned, hmod] at h ⊢
    rcases ha : alloc_pages_aligned st al (n + hdrSize) with ⟨o, st1⟩
    rw [ha] at h
    cases o with
    | none => simp at h
    | some hd =>
        simp at h
        subst h
        rw [Nat.add_sub_cancel]
        constructor
        · simp [setNext, setSize]
        · omega

/-- C4 witness: the pool branch keeps the class index 8 in the header of
the block served for a request of 100 bytes. -/
theorem header_size_encoding_amended_witness :
    (jp_alloc (poolState 8 8192) 100).1 = some (8192 + hdrSize) ∧
    ((jp_alloc (poolState 8 8192) 100).2.mem 8192).size = pool_id ((100 + hdrSize) % W) :=
  header_size_encoding_amended.1 (poolState 8 8192) 100 8192 (by decide) (by decide) (by decide)

/-- C5: pool_id(gross) is the smallest i with 2^i at least gross for
every gross size_t at least 1, and jp_alloc serves a request n with
2^(i-1) - sizeof(header) < n and n at most 2^i - sizeof(header), i below
POOL_COUNT, from pool i. -/
theorem pool_id_class_selection :
    (∀ g, 1 ≤ g → g < W → g ≤ 2 ^ pool_id g ∧ ∀ j, g ≤ 2 ^ j → pool_id g ≤ j) ∧
    (∀ (st : AllocState) (n i a : Nat), 1 ≤ n → i < POOL_COUNT →
      2 ^ (i - 1) - hdrSize < n → n ≤ 2 ^ i - hdrSize → st.heads i = some a →
      pool_id ((n + hdrSize) % W) = i ∧ (jp_alloc st n).1 = some (a + hdrSize)) := by
  constructor
  · intro g h1 h2
    exact ⟨le_two_pow_pool_id h1 h2, fun j hj => (pool_id_le_iff h1 h2 j).mpr hj⟩
  · intro st n i a hn hi hlo hhi hhead
    have hKi : i ≤ 15 := by
      have hK : POOL_COUNT = 16 := rfl
      omega
    have h2i : 2 ^ i ≤ 2 ^ 15 := Nat.pow_le_pow_right (by norm_num) hKi
    have hgi : n + hdrSize ≤ 2 ^ i := by
      have hh : hdrSize = 32 := rfl
      omega
    have hW : n + hdrSize < W := by
      have h15 : (2:Nat) ^ 15 < W := by
        show (2:Nat) ^ 15 < 2 ^ 64
        norm_num
      omega
    have hmod : (n + hdrSize) % W = n + hdrSize := Nat.mod_eq_of_lt hW
    have hlo2 : 2 ^ (i - 1) < n + hdrSize := by
      have hh : hdrSize = 32 := rfl
      omega
    have hpid : pool_id (n + hdrSize) = i := pool_id_eq (by omega) hW hlo2 hgi
    refine ⟨by rw [hmod, hpid], ?_⟩
    simp only [jp_alloc, hmod, hpid, if_pos hi, pool_get_pop st i a hhead, pool_pop1]
    rfl

/-- C5 witness: a request of 100 bytes has gross size 132, class 8, and
is served from pool 8. -/
theorem pool_id_class_selection_witness :
    pool_id ((100 + hdrSize) % W) = 8 ∧
    (jp_alloc (poolState 8 8192) 100).1 = some (8192 + hdrSize) :=
  pool_id_class_selection.2 (poolState 8 8192) 100 8 8192 (by decide) (by decide) (by decide)
    (by decide) (by decide)

/-- C6: pool_get on an empty pool: at the terminal pool it maps a fresh
span, stores class POOL_COUNT - 1 in its header and returns it without
pushing it (a mapping failure returns null); at an inner pool i it pops
the head span of pool i+1, decrements the stored size of the popped
header to i, writes a second header with stored size i at byte offset
2^i, pushes that second half onto pool i and returns the first half,
which is not published on any pool. -/
theorem pool_get_refill_split :
    (∀ st : AllocState, st.heads (POOL_COUNT - 1) = none →
      (st.os st.osCalls = none → (pool_get st (POOL_COUNT - 1)).1 = none) ∧
      (∀ a, st.os st.osCalls = some a →
        (pool_get st (POOL_COUNT - 1)).1 = some a ∧
        ((pool_get st (POOL_COUNT - 1)).2.mem a).size = POOL_COUNT - 1 ∧
        (pool_get st (POOL_COUNT - 1)).2.heads (POOL_COUNT - 1) = none)) ∧
    (∀ (st : AllocState) (i a : Nat), i < POOL_COUNT - 1 →
      st.heads i = none → st.heads (i + 1) = some a → (st.mem a).size = i + 1 →
      (pool_get st i).1 = some a ∧
      ((pool_get st i).2.mem a).size = i ∧
      ((pool_get st i).2.mem (a + 2 ^ i)).size = i ∧
      ((pool_get st i).2.mem (a + 2 ^ i)).next = none ∧
      (pool_get st i).2.heads i = some (a + 2 ^ i) ∧
      (pool_get st i).2.heads (i + 1) = (st.mem a).next) := by
  constructor
  · intro st hh
    have hget : pool_get st (POOL_COUNT - 1) = pool_refill_os st := by
      unfold pool_get
      rw [show POOL_COUNT - 1 - (POOL_COUNT - 1) = 0 from by omega]
      simp [pool_get_go, hh]
    rw [hget]
    constructor
    · intro hos
      simp [pool_refill_os, os_alloc_pages, hos]
    · intro a hos
      simp [pool_refill_os, os_alloc_pages, hos, setNext, setSize, hh]
  · intro st i a hi hh hh1 hsz
    have hK : POOL_COUNT = 16 := by rfl
    rw [pool_get_split_eq st i a hi hh hh1]
    have hsp : a ≠ a + 2 ^ i := by
      have := Nat.two_pow_pos i
      omega
    have hsp2 : a + 2 ^ i ≠ a := fun he => hsp he.symm
    have hii : i ≠ i + 1 := by omega
    have hii2 : i + 1 ≠ i := by omega
    simp only [pool_split, pool_pop1, pool_put, setSize, setNext]
    simp [hsz, hsp, hsp2, hii, hii2, hh]

/-- C6 witness: the terminal pool serves span 4096 with stored class 15,
and pool 12 refills from the block 8192 of pool 13, storing class 12 in
both halves and pushing the half at 8192 + 2^12. -/
theorem pool_get_refill_split_witness :
    ((pool_get osState (POOL_COUNT - 1)).1 = some 4096 ∧
      ((pool_get osState (POOL_COUNT - 1)).2.mem 4096).size = POOL_COUNT - 1 ∧
      (pool_get osState (POOL_COUNT - 1)).2.heads (POOL_COUNT - 1) = none) ∧
    ((pool_get splitState 12).1 = some 8192 ∧
      ((pool_get splitState 12).2.mem 8192).size = 12 ∧
      ((pool_get splitState 12).2.mem (8192 + 2 ^ 12)).size = 12 ∧
      ((pool_get splitState 12).2.mem (8192 + 2 ^ 12)).next = none ∧
      (pool_get splitState 12).2.heads 12 = some (8192 + 2 ^ 12) ∧
      (pool_get splitState 12).2.heads 13 = (splitState.mem 8192).next) :=
  ⟨(pool_get_refill_split.1 osState (by decide)).2 4096 (by decide),
   pool_get_refill_split.2 splitState 12 8192 (by decide) (by decide) (by decide) (by decide)⟩

/-- C7 counterexample: alignment 0 is not rejected: is_pow2(0) is true
in the source (the comment says so), 0 is treated as the minimum
alignment sizeof(header), and jp_alloc_aligned(0, 16) returns a non-null
pointer when the mapping succeeds, contradicting the claim that it
returns null. -/
theorem jp_alloc_aligned_zero_alignment_succeeds :
    (jp_alloc_aligned osState 0 16).1 = some 4128 ∧
    (jp_alloc_aligned osState 0 16).1 ≠ none := by
  refine ⟨by decide, by decide⟩

/-- C7 amended: jp_alloc_aligned fails for every nonzero alignment that
is not a power of two, in particular for alignment 3; alignment 0 passes
the power-of-two test and is served as minimum alignment. -/
theorem jp_alloc_aligned_rejects_nonpow2_amended :
    (∀ (st : AllocState) (a n : Nat), 0 < a → (∀ k, a ≠ 2 ^ k) →
      jp_alloc_aligned st a n = (none, st)) ∧
    (∀ (st : AllocState) (n : Nat), jp_alloc_aligned st 3 n = (none, st)) :=
  ⟨fun st a n h0 hnp => jp_alloc_aligned_none_of_not_pow2 st a n h0 hnp,
   fun st n => jp_alloc_aligned_none_of_not_pow2 st 3 n (by norm_num) three_ne_two_pow⟩

/-- C7 witness: jp_alloc_aligned(3, 16) fails on a state whose page
source always fails and also on any other state. -/
theorem jp_alloc_aligned_rejects_nonpow2_amended_witness :
    jp_alloc_aligned emptyState 3 16 = (none, emptyState) :=
  jp_alloc_aligned_rejects_nonpow2_amended.2 emptyState 16

/-- C8 counterexample: jp_realloc(null, 0) returns null without
allocating, but jp_alloc(0) returns a fresh block from pool 5, so
jp_realloc(null, n) does not behave as jp_alloc(n) at n = 0. -/
theorem jp_realloc_null_zero_differs_from_alloc :
    (jp_realloc (poolState 5 64) none 0).1 = none ∧
    (jp_alloc (poolState 5 64) 0).1 = some 96 ∧
    (jp_realloc (poolState 5 64) none 0).1 ≠ (jp_alloc (poolState 5 64) 0).1 := by
  refine ⟨by decide, by decide, by decide⟩

/-- C8 amended: jp_realloc(null, n) equals jp_alloc(n) for every n at
least 1, while jp_realloc(null, 0) returns null and allocates nothing;
jp_realloc(p, 0) for non-null p frees p and returns null; and
jp_realloc(p, n) with 0 < n at most the usable size returns p with the
state unchanged. -/
theorem jp_realloc_null_and_shrink_amended :
    (∀ (st : AllocState) (n : Nat), 1 ≤ n → jp_realloc st none n = jp_alloc st n) ∧
    (∀ st : AllocState, jp_realloc st none 0 = (none, st)) ∧
    (∀ (st : AllocState) (u : Nat), jp_realloc st (some u) 0 = (none, jp_free st (some u))) ∧
    (∀ (st : AllocState) (u n v : Nat), malloc_usable_size st (some u) = some v →
      1 ≤ n → n ≤ v → jp_realloc st (some u) n = (some u, st)) := by
  refine ⟨?_, ?_, ?_, ?_⟩
  · intro st n hn
    have hn0 : n ≠ 0 := by omega
    rcases hA : jp_alloc st n with ⟨nm, st1⟩
    simp [jp_realloc, hA, jp_free, hn, hn0]
  · intro st
    simp [jp_realloc, jp_free]
  · intro st u
    simp [jp_realloc]
  · intro st u n v husable hn hnv
    simp only [malloc_usable_size, Option.some.injEq] at husable
    simp only [jp_realloc]
    rw [husable]
    rw [if_neg (by omega), if_neg (by omega)]

/-- C8 witness: a live direct block with usable size 36832 is returned
unchanged by jp_realloc with the smaller request 100. -/
theorem jp_realloc_null_and_shrink_amended_witness :
    malloc_usable_size liveState (some 8224) = some 36832 ∧
    jp_realloc liveState (some 8224) 100 = (some 8224, liveState) :=
  ⟨by decide,
   jp_realloc_null_and_shrink_amended.2.2.2 liveState 8224 100 36832 (by decide) (by decide)
     (by decide)⟩

/-- C9: in the sequential embedding the pool_get refill recursion
strictly increases the pool index, stops at pool POOL_COUNT - 1, and the
total function returns null exactly when every pool from i up is empty
and the single terminal mapping call fails, so a mapping failure
propagates as a null return through every recursive caller. -/
theorem pool_get_none_iff_exhausted (st : AllocState) (i : Nat) (hi : i ≤ POOL_COUNT - 1) :
    ((pool_get st i).1 = none ↔
      ((∀ j, i ≤ j → j ≤ POOL_COUNT - 1 → st.heads j = none) ∧ st.os st.osCalls = none)) :=
  pool_get_go_none_iff (POOL_COUNT - 1 - i) i st hi rfl

/-- C9 witness: with every pool empty and a failing page source,
pool_get on pool 3 returns null. -/
theorem pool_get_none_iff_exhausted_witness : (pool_get emptyState 3).1 = none :=
  (pool_get_none_iff_exhausted emptyState 3 (by decide)).mpr ⟨fun j hj1 hj2 => rfl, rfl⟩

/-- C10: malloc_usable_size reads the header in front of its argument
with no null check, so in the total embedding the null pointer takes the
out-of-domain branch and produces no size, while jp_free treats null as
a no-op and returns the state unchanged. -/
theorem usable_size_null_undefined_free_null_noop :
    (∀ st : AllocState, malloc_usable_size st none = none) ∧
    (∀ st : AllocState, jp_free st none = st) :=
  ⟨fun _ => rfl, fun _ => rfl⟩

end JpAlloc
